import Mathlib

/-
Verification of the dynamic array `vector<T>` implemented in `src/vector.h`.

The development has two layers.

The first layer is a pure model of the success path of every public
operation.  A vector state is modelled by the values of its three data
members: whether `data_` is a null pointer (`buf_nonnull`), the list of live
element values `data_[0] .. data_[size_ - 1]` (`elems`, so `size_` is
`elems.length`), and `capacity_`.  Element copies preserve values, so on the
success path the only observable information about the buffer is its
null-ness and the stored values.  A C++ detail that matters below:
`operator new(n)` returns a NON-null pointer on success even when `n == 0`
(the copy constructor executes `operator new(other.capacity_ * sizeof(T))`
and stores the result unconditionally, so copying an empty vector yields a
state with a non-null `data_` and `capacity_ == 0`).

The second layer models the failure behaviour needed by the
exception-safety claims.  Copy construction of a `T` is the only fallible
element operation involved; failures are injected by an oracle indexed by a
global invocation counter (the standard "fail on the N-th copy" test
idiom), and `operator new` failures by a second oracle indexed by an
allocation counter.  `copy_construct_all` is additionally modelled at the
level of construct/destroy events on the destination slots, which is what
the rollback claim talks about.
-/

namespace Vh

/-- Vector state: the three data members of `vector<T>`.
`buf_nonnull` is `true` iff the pointer `data_` is non-null;
`elems` lists the live element values `data_[0..size_)`;
`capacity_` is the capacity. -/
structure Vec (α : Type) where
  buf_nonnull : Bool
  elems : List α
  capacity_ : Nat
deriving Repr, DecidableEq

/-- The data member `size_`, always the number of live elements. -/
def Vec.size_ (v : Vec α) : Nat := v.elems.length

/-- Default constructor: `data_ = nullptr; size_ = 0; capacity_ = 0;`. -/
def vecNew {α : Type} : Vec α := ⟨false, [], 0⟩

/-- Copy constructor (success path): `operator new(other.capacity_ * sizeof(T))`
followed by `copy_construct_all`.  `operator new` returns a non-null pointer
on success even for a zero-byte request, hence `buf_nonnull = true`
unconditionally, including when `other.capacity_ = 0`. -/
def vecCopy (other : Vec α) : Vec α := ⟨true, other.elems, other.capacity_⟩

/-- `operator=`: the argument `same` renders the pointer comparison
`this == &other`; when the objects differ, a temporary deep copy is built
and swapped in, so the result is the copy of `other`. -/
def vecAssign (same : Bool) (self other : Vec α) : Vec α :=
  if same then self else vecCopy other

/-- Mutable `data()`: returns `nullptr` when `capacity_ == 0`, else `data_`.
The returned value is modelled by its null-ness (`false` = null). -/
def dataMut (v : Vec α) : Bool :=
  if v.capacity_ = 0 then false else v.buf_nonnull

/-- Const `data()`: returns `data_` unconditionally. -/
def dataConst (v : Vec α) : Bool := v.buf_nonnull

/-- `increase_capacity()`: `1` if `capacity_ == 0`, else `capacity_ * 2`. -/
def increase_capacity (v : Vec α) : Nat :=
  if v.capacity_ = 0 then 1 else v.capacity_ * 2

/-- Modelled from the spec: `growthTarget(currentCapacity)` returns `1` if
`currentCapacity == 0`, else `currentCapacity * 2`.  (The source names this
function `increase_capacity`; the spec names it `growthTarget`.) -/
def growthTarget (currentCapacity : Nat) : Nat :=
  if currentCapacity = 0 then 1 else currentCapacity * 2

/-- `new_buffer(new_capacity)` (success path): build a temporary vector —
empty when `new_capacity == 0`, otherwise a fresh non-null allocation
holding copies of the current elements — then swap it with `*this`. -/
def new_buffer (v : Vec α) (new_capacity : Nat) : Vec α :=
  if new_capacity = 0 then ⟨false, [], 0⟩ else ⟨true, v.elems, new_capacity⟩

/-- `push_back_realloc` (success path): copy the argument, reallocate to
`increase_capacity()`, construct the saved copy into the next slot. -/
def push_back_realloc (v : Vec α) (value : α) : Vec α :=
  let g := new_buffer v (increase_capacity v)
  { g with elems := g.elems ++ [value] }

/-- `push_back` (success path): construct in place when `size_ != capacity_`,
else go through `push_back_realloc`. -/
def push_back (v : Vec α) (value : α) : Vec α :=
  if v.elems.length ≠ v.capacity_ then { v with elems := v.elems ++ [value] }
  else push_back_realloc v value

/-- `pop_back()`: destroy the last element, decrement `size_`. -/
def pop_back (v : Vec α) : Vec α := { v with elems := v.elems.dropLast }

/-- `reserve(new_capacity)` (success path): no-op when
`capacity_ >= new_capacity`, else `new_buffer(new_capacity)`. -/
def reserve (v : Vec α) (new_capacity : Nat) : Vec α :=
  if new_capacity ≤ v.capacity_ then v else new_buffer v new_capacity

/-- `shrink_to_fit()` (success path). -/
def shrink_to_fit (v : Vec α) : Vec α :=
  if v.elems.length < v.capacity_ then new_buffer v v.elems.length else v

/-- `clear()`: destroy all elements; `size_ = 0`; buffer and capacity kept. -/
def clear (v : Vec α) : Vec α := { v with elems := [] }

/-- `swap(other)`: exchange the three data members wholesale. -/
def vecSwap (a b : Vec α) : Vec α × Vec α := (b, a)

/-- `std::swap(data_[i], data_[j])` on the value list; identity when an
index is out of range (real executions always stay in range). -/
def swapIdx (xs : List α) (i j : Nat) : List α :=
  match xs[i]?, xs[j]? with
  | some a, some b => (xs.set i b).set j a
  | _, _ => xs

/-- The loop of `insert`: `for (i = size_ - 1; i != ind; i--)
swap(data_[i], data_[i-1])`, given as the remaining iteration count. -/
def insertLoop : List α → Nat → Nat → List α
  | xs, _, 0 => xs
  | xs, i, m + 1 => insertLoop (swapIdx xs i (i - 1)) (i - 1) m

/-- `insert(pos, val)` (success path), with `pos` rendered as the index
`ind = pos - begin()`.  Returns the new state and the offset of the
returned iterator from `data_`. -/
def vecInsert (v : Vec α) (ind : Nat) (val : α) : Vec α × Nat :=
  let v1 := push_back v val
  ({ v1 with
      elems := insertLoop v1.elems (v1.elems.length - 1) (v1.elems.length - 1 - ind) },
   ind)

/-- The loop of single-element `erase`: `for (i = pos - begin(); i + 1 != size_;
i++) swap(data_[i], data_[i+1])`, given as the remaining iteration count. -/
def eraseOneLoop : List α → Nat → Nat → List α
  | xs, _, 0 => xs
  | xs, i, m + 1 => eraseOneLoop (swapIdx xs i (i + 1)) (i + 1) m

/-- `erase(pos)` with `pos` rendered as an index: the result iterator
`pos + 1` is computed first, then the swap loop runs, then `pop_back()`.
Returns the new state and the offset of the returned iterator from
`data_`. -/
def eraseOne (v : Vec α) (pos : Nat) : Vec α × Nat :=
  (pop_back { v with elems := eraseOneLoop v.elems pos (v.elems.length - pos - 1) },
   pos + 1)

/-- The first loop of range `erase`: `for (i = first, j = last; j != end();
i++, j++) swap(*i, *j)`, given as the remaining iteration count
(`size_ - last` at the call site). -/
def eraseSwapLoop : List α → Nat → Nat → Nat → List α
  | xs, _, _, 0 => xs
  | xs, f, l, m + 1 => eraseSwapLoop (swapIdx xs f l) (f + 1) (l + 1) m

/-- `k` successive `pop_back()` calls (the second loop of range `erase`). -/
def popN : Vec α → Nat → Vec α
  | v, 0 => v
  | v, k + 1 => popN (pop_back v) k

/-- `erase(first, last)` with the iterators rendered as indices `f = first -
begin()` and `l = last - begin()`: swap loop, then `l - f` pops, returning
`begin() + (last - first)` as an offset from `data_`. -/
def eraseRange (v : Vec α) (f l : Nat) : Vec α × Nat :=
  (popN { v with elems := eraseSwapLoop v.elems f l (v.elems.length - l) } (l - f),
   l - f)

/-- States reachable through the public interface, with each operation's
preconditions (`pop_back`, `erase` and `insert` demand valid positions, as
out-of-range access is undefined behaviour in the source).  `swap`
exchanges two already-reachable states and so contributes no new states;
it is included for completeness. -/
inductive Reachable : Vec α → Prop where
  | new : Reachable vecNew
  | copy {v : Vec α} : Reachable v → Reachable (vecCopy v)
  | assign {a b : Vec α} (same : Bool) :
      Reachable a → Reachable b → Reachable (vecAssign same a b)
  | push {v : Vec α} (x : α) : Reachable v → Reachable (push_back v x)
  | pop {v : Vec α} : Reachable v → v.elems ≠ [] → Reachable (pop_back v)
  | reserveOp {v : Vec α} (n : Nat) : Reachable v → Reachable (reserve v n)
  | shrink {v : Vec α} : Reachable v → Reachable (shrink_to_fit v)
  | clearOp {v : Vec α} : Reachable v → Reachable (clear v)
  | swapFst {a b : Vec α} : Reachable a → Reachable b → Reachable (vecSwap a b).1
  | swapSnd {a b : Vec α} : Reachable a → Reachable b → Reachable (vecSwap a b).2
  | insertOp {v : Vec α} (ind : Nat) (x : α) :
      Reachable v → ind ≤ v.elems.length → Reachable (vecInsert v ind x).1
  | eraseOneOp {v : Vec α} (pos : Nat) :
      Reachable v → pos < v.elems.length → Reachable (eraseOne v pos).1
  | eraseRangeOp {v : Vec α} (f l : Nat) :
      Reachable v → f ≤ l → l ≤ v.elems.length → Reachable (eraseRange v f l).1

/-- Structural invariant carried by every reachable state: a positive
capacity means `data_` is non-null, and `size_ <= capacity_`. -/
def Inv (v : Vec α) : Prop :=
  (0 < v.capacity_ → v.buf_nonnull = true) ∧ v.elems.length ≤ v.capacity_

/-- Element-lifecycle events on the slots of a destination buffer. -/
inductive Ev (α : Type) where
  | construct (slot : Nat) (val : α)
  | destroy (slot : Nat)
deriving Repr, DecidableEq

/-- `destroy_all(dst, n)`: destroys `dst[0..n)` in index order. -/
def destroy_all_ev (α : Type) (n : Nat) : List (Ev α) :=
  (List.range n).map Ev.destroy

/-- Result of the construction loop inside `copy_construct_all`: the event
trace, the global copy-invocation counter afterwards, the value of the loop
variable `i` (the number of elements constructed so far), and whether a
construction threw. -/
structure LoopOut (α : Type) where
  evs : List (Ev α)
  ctr : Nat
  constructed : Nat
  failed : Bool

/-- The `for` loop of `copy_construct_all`: construct `dst[i]` from each
source element in turn; the copy constructor invocation numbered `ctr` by
the global counter fails iff `F ctr`. -/
def cca_loop (F : Nat → Bool) : List α → Nat → Nat → LoopOut α
  | [], ctr, i => ⟨[], ctr, i, false⟩
  | v :: rest, ctr, i =>
      if F ctr then ⟨[], ctr + 1, i, true⟩
      else
        let r := cca_loop F rest (ctr + 1) (i + 1)
        ⟨Ev.construct i v :: r.evs, r.ctr, r.constructed, r.failed⟩

/-- `copy_construct_all(dst, src, size)`: run the construction loop; if it
throws having constructed `i` elements, run `destroy_all(dst, i)` and
re-signal the failure (`failed = true`). -/
def copy_construct_all (F : Nat → Bool) (src : List α) (ctr : Nat) : LoopOut α :=
  let r := cca_loop F src ctr 0
  if r.failed then ⟨r.evs ++ destroy_all_ev α r.constructed, r.ctr, r.constructed, true⟩
  else r

/-- Number of `construct` events for slot `s` in a trace. -/
def constructCount (evs : List (Ev α)) (s : Nat) : Nat :=
  evs.countP fun e => match e with
    | Ev.construct j _ => decide (j = s)
    | Ev.destroy _ => false

/-- Number of `destroy` events for slot `s` in a trace. -/
def destroyCount (evs : List (Ev α)) (s : Nat) : Nat :=
  evs.countP fun e => match e with
    | Ev.destroy j => decide (j = s)
    | Ev.construct _ _ => false

/-- The copy constructor of `vector`: allocate, `copy_construct_all`; on
failure `operator delete` the buffer and re-throw.  Returns the outcome,
the element-lifecycle trace on the new buffer, and the final counter. -/
def vector_copy (F : Nat → Bool) (other : Vec α) (ctr : Nat) :
    Except Unit (Vec α) × List (Ev α) × Nat :=
  let r := copy_construct_all F other.elems ctr
  if r.failed then (Except.error (), r.evs, r.ctr)
  else (Except.ok ⟨true, other.elems, other.capacity_⟩, r.evs, r.ctr)

/-- Failure injection: `copyFails n` makes the `n`-th copy-constructor
invocation throw; `allocFails n` makes the `n`-th `operator new` throw. -/
structure Oracle where
  copyFails : Nat → Bool
  allocFails : Nat → Bool

/-- Global invocation counters: copy constructions and allocations. -/
structure Counters where
  cc : Nat
  ac : Nat
deriving Repr, DecidableEq

/-- Summary of `copy_construct_all` for the oracle model: whether some copy
in the loop threw, and the copy counter afterwards.  (On failure the
rollback leaves zero live elements in the destination, per
`copy_construct_all` above.) -/
def ccaRun (O : Oracle) : List α → Nat → Bool × Nat
  | [], ctr => (false, ctr)
  | _ :: rest, ctr =>
      if O.copyFails ctr then (true, ctr + 1) else ccaRun O rest (ctr + 1)

/-- `new_buffer(new_capacity)` with failure injection: build a temporary
(fresh allocation plus `copy_construct_all` of the current elements unless
`new_capacity == 0`), then swap; any failure propagates before the swap,
leaving `*this` untouched (the temporary is reclaimed by its destructor).
Returns the error if any, the state of `*this` afterwards, and the
counters. -/
def new_bufferF (O : Oracle) (v : Vec α) (new_capacity : Nat) (c : Counters) :
    Option Unit × Vec α × Counters :=
  if new_capacity = 0 then (none, ⟨false, [], 0⟩, c)
  else if O.allocFails c.ac then (some (), v, ⟨c.cc, c.ac + 1⟩)
  else
    let r := ccaRun O v.elems c.cc
    if r.1 then (some (), v, ⟨r.2, c.ac + 1⟩)
    else (none, ⟨true, v.elems, new_capacity⟩, ⟨r.2, c.ac + 1⟩)

/-- `reserve(new_capacity)` with failure injection. -/
def reserveF (O : Oracle) (v : Vec α) (new_capacity : Nat) (c : Counters) :
    Option Unit × Vec α × Counters :=
  if new_capacity ≤ v.capacity_ then (none, v, c)
  else new_bufferF O v new_capacity c

/-- `push_back_realloc(value)` with failure injection: `T tmp(value)` (one
copy invocation), then `new_buffer(increase_capacity())`, then construct
`tmp` into the next slot (one more copy invocation). -/
def push_back_reallocF (O : Oracle) (v : Vec α) (value : α) (c : Counters) :
    Option Unit × Vec α × Counters :=
  if O.copyFails c.cc then (some (), v, ⟨c.cc + 1, c.ac⟩)
  else
    match new_bufferF O v (increase_capacity v) ⟨c.cc + 1, c.ac⟩ with
    | (some e, v2, c2) => (some e, v2, c2)
    | (none, v2, c2) =>
        if O.copyFails c2.cc then (some (), v2, ⟨c2.cc + 1, c2.ac⟩)
        else (none, { v2 with elems := v2.elems ++ [value] }, ⟨c2.cc + 1, c2.ac⟩)

/-- `push_back(value)` with failure injection. -/
def push_backF (O : Oracle) (v : Vec α) (value : α) (c : Counters) :
    Option Unit × Vec α × Counters :=
  if v.elems.length ≠ v.capacity_ then
    if O.copyFails c.cc then (some (), v, ⟨c.cc + 1, c.ac⟩)
    else (none, { v with elems := v.elems ++ [value] }, ⟨c.cc + 1, c.ac⟩)
  else push_back_reallocF O v value c

theorem swapIdx_length (xs : List α) (i j : Nat) :
    (swapIdx xs i j).length = xs.length := by
  unfold swapIdx
  cases h1 : xs[i]? <;> cases h2 : xs[j]? <;> simp

theorem swapIdx_get_left (xs : List α) (i j : Nat) (hi : i < xs.length)
    (hj : j < xs.length) : (swapIdx xs i j)[i]? = xs[j]? := by
  unfold swapIdx
  have h1 : xs[i]? = some xs[i] := List.getElem?_eq_getElem hi
  have h2 : xs[j]? = some xs[j] := List.getElem?_eq_getElem hj
  rw [h1, h2]
  by_cases hij : j = i
  · subst hij
    simp [List.getElem?_set, hj]
  · simp [List.getElem?_set, hij, hi, h2]

theorem swapIdx_get_right (xs : List α) (i j : Nat) (hi : i < xs.length)
    (hj : j < xs.length) : (swapIdx xs i j)[j]? = xs[i]? := by
  unfold swapIdx
  have h1 : xs[i]? = some xs[i] := List.getElem?_eq_getElem hi
  have h2 : xs[j]? = some xs[j] := List.getElem?_eq_getElem hj
  rw [h1, h2]
  simp [List.getElem?_set, hj, h1]

theorem swapIdx_get_ne (xs : List α) (i j k : Nat) (hki : k ≠ i) (hkj : k ≠ j) :
    (swapIdx xs i j)[k]? = xs[k]? := by
  unfold swapIdx
  cases h1 : xs[i]? <;> cases h2 : xs[j]? <;>
    simp [List.getElem?_set, Ne.symm hki, Ne.symm hkj]

theorem eraseSwapLoop_length (xs : List α) (f l m : Nat) :
    (eraseSwapLoop xs f l m).length = xs.length := by
  induction m generalizing xs f l with
  | zero => rfl
  | succ m ih => rw [eraseSwapLoop, ih, swapIdx_length]

theorem eraseOneLoop_length (xs : List α) (i m : Nat) :
    (eraseOneLoop xs i m).length = xs.length := by
  induction m generalizing xs i with
  | zero => rfl
  | succ m ih => rw [eraseOneLoop, ih, swapIdx_length]

theorem insertLoop_length (xs : List α) (i m : Nat) :
    (insertLoop xs i m).length = xs.length := by
  induction m generalizing xs i with
  | zero => rfl
  | succ m ih => rw [insertLoop, ih, swapIdx_length]

theorem eraseSwapLoop_get (xs : List α) (f l m : Nat)
    (hlen : xs.length = l + m) (hfl : f ≤ l) :
    (∀ k, k < f → (eraseSwapLoop xs f l m)[k]? = xs[k]?) ∧
    (∀ k, f ≤ k → k < f + m → (eraseSwapLoop xs f l m)[k]? = xs[k + (l - f)]?) := by
  induction m generalizing xs f l with
  | zero =>
    exact ⟨fun k _ => rfl, fun k h1 h2 => absurd h2 (by omega)⟩
  | succ m ih =>
    have hl : l < xs.length := by omega
    have hf : f < xs.length := by omega
    have hys : (swapIdx xs f l).length = (l + 1) + m := by rw [swapIdx_length]; omega
    obtain ⟨ihA, ihB⟩ := ih (swapIdx xs f l) (f + 1) (l + 1) hys (by omega)
    rw [eraseSwapLoop]
    constructor
    · intro k hk
      rw [ihA k (by omega), swapIdx_get_ne xs f l k (by omega) (by omega)]
    · intro k hk1 hk2
      by_cases hkf : k = f
      · subst hkf
        have hidx : k + (l - k) = l := by omega
        rw [hidx, ihA k (by omega), swapIdx_get_left xs k l hf hl]
      · have hsh : l + 1 - (f + 1) = l - f := by omega
        have hB := ihB k (by omega) (by omega)
        rw [hsh] at hB
        rw [hB, swapIdx_get_ne xs f l (k + (l - f)) (by omega) (by omega)]

theorem eraseSwapLoop_take (xs : List α) (f l : Nat) (hfl : f ≤ l)
    (hl : l ≤ xs.length) :
    (eraseSwapLoop xs f l (xs.length - l)).take (xs.length - (l - f)) =
      xs.take f ++ xs.drop l := by
  have hlen : xs.length = l + (xs.length - l) := by omega
  obtain ⟨hA, hB⟩ := eraseSwapLoop_get xs f l (xs.length - l) hlen hfl
  apply List.ext_getElem?
  intro k
  rw [List.getElem?_take, List.getElem?_append]
  have htf : (xs.take f).length = f := by
    rw [List.length_take]; omega
  rw [htf]
  by_cases hk1 : k < f
  · have hk2 : k < xs.length - (l - f) := by omega
    rw [if_pos hk2, if_pos hk1, hA k hk1, List.getElem?_take, if_pos hk1]
  · by_cases hk3 : k < xs.length - (l - f)
    · rw [if_pos hk3, if_neg hk1, hB k (by omega) (by omega), List.getElem?_drop]
      congr 1
      omega
    · rw [if_neg hk3, if_neg hk1]
      rw [eq_comm, List.getElem?_eq_none_iff]
      rw [List.length_drop]
      omega

theorem popN_spec (v : Vec α) (k : Nat) :
    (popN v k).elems = v.elems.take (v.elems.length - k) ∧
    (popN v k).buf_nonnull = v.buf_nonnull ∧
    (popN v k).capacity_ = v.capacity_ := by
  induction k generalizing v with
  | zero => simp [popN, List.take_length]
  | succ k ih =>
    obtain ⟨h1, h2, h3⟩ := ih (pop_back v)
    refine ⟨?_, h2, h3⟩
    rw [popN, h1]
    show (v.elems.dropLast).take (v.elems.dropLast.length - k) =
      v.elems.take (v.elems.length - (k + 1))
    rw [List.length_dropLast, List.dropLast_eq_take, List.take_take]
    congr 1
    omega

theorem eraseRange_elems (v : Vec α) (f l : Nat) (hfl : f ≤ l)
    (hl : l ≤ v.elems.length) :
    (eraseRange v f l).1.elems = v.elems.take f ++ v.elems.drop l := by
  unfold eraseRange
  obtain ⟨h1, _, _⟩ :=
    popN_spec { v with elems := eraseSwapLoop v.elems f l (v.elems.length - l) } (l - f)
  rw [h1]
  show (eraseSwapLoop v.elems f l (v.elems.length - l)).take
      ((eraseSwapLoop v.elems f l (v.elems.length - l)).length - (l - f)) =
    v.elems.take f ++ v.elems.drop l
  rw [eraseSwapLoop_length]
  exact eraseSwapLoop_take v.elems f l hfl hl

theorem push_back_inv {v : Vec α} (x : α) (h : Inv v) : Inv (push_back v x) := by
  obtain ⟨h1, h2⟩ := h
  unfold Inv push_back push_back_realloc new_buffer increase_capacity
  by_cases hc : v.elems.length = v.capacity_
  · by_cases h0 : v.capacity_ = 0 <;> (simp [hc, h0]; try omega)
  · simp only [ne_eq, hc, not_false_eq_true, if_true]
    exact ⟨h1, by simp; omega⟩

theorem new_buffer_inv {v : Vec α} (n : Nat) (hn : v.elems.length ≤ n) :
    Inv (new_buffer v n) := by
  unfold Inv new_buffer
  by_cases h0 : n = 0 <;> (simp [h0]; try omega)

theorem pop_back_inv {v : Vec α} (h : Inv v) : Inv (pop_back v) := by
  refine ⟨h.1, ?_⟩
  have := h.2
  simp only [pop_back, List.length_dropLast]
  omega

theorem reserve_inv {v : Vec α} (n : Nat) (h : Inv v) : Inv (reserve v n) := by
  unfold reserve
  by_cases hn : n ≤ v.capacity_
  · simpa [hn] using h
  · simp only [hn, if_false]
    exact new_buffer_inv n (by have := h.2; omega)

theorem shrink_inv {v : Vec α} (h : Inv v) : Inv (shrink_to_fit v) := by
  unfold shrink_to_fit
  by_cases hs : v.elems.length < v.capacity_
  · simp only [hs, if_true]
    exact new_buffer_inv v.elems.length (by omega)
  · simpa [hs] using h

theorem insert_inv {v : Vec α} (ind : Nat) (x : α) (h : Inv v) :
    Inv (vecInsert v ind x).1 := by
  have hp := push_back_inv x h
  refine ⟨hp.1, ?_⟩
  have := hp.2
  simp only [vecInsert, insertLoop_length]
  exact this

theorem eraseOne_inv {v : Vec α} (pos : Nat) (h : Inv v) : Inv (eraseOne v pos).1 := by
  refine ⟨h.1, ?_⟩
  have := h.2
  simp only [eraseOne, pop_back, List.length_dropLast, eraseOneLoop_length]
  omega

theorem eraseRange_inv {v : Vec α} (f l : Nat) (h : Inv v) :
    Inv (eraseRange v f l).1 := by
  obtain ⟨p1, p2, p3⟩ :=
    popN_spec { v with elems := eraseSwapLoop v.elems f l (v.elems.length - l) } (l - f)
  refine ⟨?_, ?_⟩
  · intro hpos
    rw [eraseRange] at hpos ⊢
    simp only at hpos ⊢
    rw [p3] at hpos
    rw [p2]
    exact h.1 hpos
  · rw [eraseRange]
    simp only
    rw [p3, p1]
    have hlen := h.2
    simp only [List.length_take, eraseSwapLoop_length]
    omega

theorem reachable_inv {w : Vec α} (h : Reachable w) : Inv w := by
  induction h
  case new => exact ⟨by simp [vecNew], by simp [vecNew]⟩
  case copy v a ih => exact ⟨fun _ => rfl, ih.2⟩
  case assign a b same ha hb iha ihb =>
    unfold vecAssign
    by_cases hs : same
    · simpa [hs] using iha
    · simpa [hs] using (⟨fun _ => rfl, ihb.2⟩ : Inv (vecCopy b))
  case push v x a ih => exact push_back_inv x ih
  case pop v a hne ih => exact pop_back_inv ih
  case reserveOp v n a ih => exact reserve_inv n ih
  case shrink v a ih => exact shrink_inv ih
  case clearOp v a ih => exact ⟨ih.1, by simp [clear]⟩
  case swapFst a b ha hb iha ihb => exact ihb
  case swapSnd a b ha hb iha ihb => exact iha
  case insertOp v ind x a hle ih => exact insert_inv ind x ih
  case eraseOneOp v pos a hlt ih => exact eraseOne_inv pos ih
  case eraseRangeOp v f l a hfl hll ih => exact eraseRange_inv f l ih

theorem constructCount_append (a b : List (Ev α)) (s : Nat) :
    constructCount (a ++ b) s = constructCount a s + constructCount b s := by
  unfold constructCount
  exact List.countP_append _ a b

theorem destroyCount_append (a b : List (Ev α)) (s : Nat) :
    destroyCount (a ++ b) s = destroyCount a s + destroyCount b s := by
  unfold destroyCount
  exact List.countP_append _ a b

theorem destroy_all_ev_destroyCount (α : Type) (n s : Nat) :
    destroyCount (destroy_all_ev α n) s = if s < n then 1 else 0 := by
  induction n with
  | zero => simp [destroy_all_ev, destroyCount]
  | succ n ih =>
    rw [destroy_all_ev, List.range_succ, List.map_append]
    rw [destroy_all_ev] at ih
    rw [destroyCount_append, ih]
    unfold destroyCount
    simp only [List.map_cons, List.map_nil, List.countP_cons, List.countP_nil]
    simp only [decide_eq_true_eq]
    split_ifs <;> omega

theorem destroy_all_ev_constructCount (α : Type) (n s : Nat) :
    constructCount (destroy_all_ev α n) s = 0 := by
  rw [constructCount, List.countP_eq_zero]
  intro e he
  rw [destroy_all_ev] at he
  simp only [List.mem_map] at he
  obtain ⟨j, _, rfl⟩ := he
  simp

theorem cca_loop_fail (F : Nat → Bool) :
    ∀ (k : Nat) (src : List α) (ctr i0 : Nat), k < src.length →
    (∀ j, j < k → F (ctr + j) = false) → F (ctr + k) = true →
    (cca_loop F src ctr i0).failed = true ∧
    (cca_loop F src ctr i0).ctr = ctr + k + 1 ∧
    (cca_loop F src ctr i0).constructed = i0 + k ∧
    (∀ s, constructCount (cca_loop F src ctr i0).evs s =
        if i0 ≤ s ∧ s < i0 + k then 1 else 0) ∧
    (∀ s, destroyCount (cca_loop F src ctr i0).evs s = 0) := by
  intro k
  induction k with
  | zero =>
    intro src ctr i0 hk hbef hf
    match src with
    | [] => simp at hk
    | v :: rest =>
      rw [Nat.add_zero] at hf
      simp only [cca_loop, hf, if_true]
      refine ⟨by trivial, by simp, by simp, ?_, ?_⟩
      · intro s
        simp only [constructCount, List.countP_nil]
        split_ifs <;> omega
      · intro s
        simp [destroyCount]
  | succ k ih =>
    intro src ctr i0 hk hbef hf
    match src with
    | [] => simp at hk
    | v :: rest =>
      have h0 : F ctr = false := by
        have := hbef 0 (by omega)
        simpa using this
      have hk2 : k < rest.length := by
        simp only [List.length_cons] at hk
        omega
      have hbef2 : ∀ j, j < k → F (ctr + 1 + j) = false := by
        intro j hj
        have := hbef (j + 1) (by omega)
        rwa [show ctr + (j + 1) = ctr + 1 + j by omega] at this
      have hf2 : F (ctr + 1 + k) = true := by
        rwa [show ctr + (k + 1) = ctr + 1 + k by omega] at hf
      obtain ⟨H1, H2, H3, H4, H5⟩ := ih rest (ctr + 1) (i0 + 1) hk2 hbef2 hf2
      simp only [cca_loop, h0, Bool.false_eq_true, if_false]
      refine ⟨H1, by rw [H2]; omega, by rw [H3]; omega, ?_, ?_⟩
      · intro s
        have h4 := H4 s
        simp only [constructCount, List.countP_cons] at h4 ⊢
        rw [h4]
        simp only [decide_eq_true_eq]
        split_ifs <;> omega
      · intro s
        have h5 := H5 s
        simp only [destroyCount, List.countP_cons] at h5 ⊢
        rw [h5]
        simp

theorem increase_capacity_spec (v : Vec α) :
    increase_capacity v ≠ 0 ∧ v.capacity_ < increase_capacity v ∧
    increase_capacity v = growthTarget v.capacity_ := by
  unfold increase_capacity growthTarget
  by_cases h : v.capacity_ = 0 <;> (simp [h]; try omega)

/-- C1 (amended): for every vector state with `capacity_ == 0` the mutable
`data()` overload returns a null-equivalent pointer; the const overload
returns the stored buffer pointer unconditionally, and since
`operator new(0)` yields a non-null allocation, that pointer is non-null
after copy-constructing a default-constructed vector. -/
theorem data_mutable_null_const_raw (α : Type) :
    (∀ v : Vec α, v.capacity_ = 0 → dataMut v = false) ∧
    ((vecCopy (vecNew : Vec α)).capacity_ = 0 ∧
      dataConst (vecCopy (vecNew : Vec α)) = true) := by
  refine ⟨fun v h => ?_, rfl, rfl⟩
  simp [dataMut, h]

/-- Witness for C1 (amended), at the default-constructed vector. -/
theorem data_mutable_null_witness : dataMut (vecNew : Vec Nat) = false :=
  (data_mutable_null_const_raw Nat).1 vecNew rfl

/-- C1 counterexample: copy-constructing a default-constructed (capacity 0)
vector reaches a state with `capacity_ == 0` on which the const `data()`
overload returns a non-null pointer (the const overload returns `data_`
without the capacity check), contradicting the claim that both overloads
return a null-equivalent pointer there. -/
theorem data_const_nonnull_counterexample :
    Reachable (vecCopy (vecNew : Vec Nat)) ∧
    (vecCopy (vecNew : Vec Nat)).capacity_ = 0 ∧
    dataConst (vecCopy (vecNew : Vec Nat)) = true :=
  ⟨Reachable.copy Reachable.new, rfl, rfl⟩

/-- C2 (amended): every state reachable through the public operations
satisfies `capacity_ > 0` implies the buffer pointer is non-null, and
`capacity_ == 0` implies `length == 0`.  (The converse direction — non-null
implies `capacity_ > 0` — fails on the code; see the counterexample.) -/
theorem reachable_invariant_amended {α : Type} {v : Vec α} (h : Reachable v) :
    (0 < v.capacity_ → v.buf_nonnull = true) ∧
    (v.capacity_ = 0 → v.elems.length = 0) := by
  obtain ⟨h1, h2⟩ := reachable_inv h
  exact ⟨h1, fun h0 => by omega⟩

/-- Witness for C2 (amended), at the default-constructed vector. -/
theorem reachable_invariant_witness :
    (0 < (vecNew : Vec Nat).capacity_ → (vecNew : Vec Nat).buf_nonnull = true) ∧
    ((vecNew : Vec Nat).capacity_ = 0 → (vecNew : Vec Nat).elems.length = 0) :=
  reachable_invariant_amended Reachable.new

/-- C2 counterexample: the state reached by copy-constructing a
default-constructed vector has a non-null buffer (`operator new(0)` is
non-null) with `capacity_ == 0`, violating the claimed invariant that the
buffer is non-null iff `capacity_ > 0`. -/
theorem invariant_iff_counterexample :
    Reachable (vecCopy (vecNew : Vec Nat)) ∧
    ¬((vecCopy (vecNew : Vec Nat)).buf_nonnull = true ↔
        0 < (vecCopy (vecNew : Vec Nat)).capacity_) :=
  ⟨Reachable.copy Reachable.new, by decide⟩

/-- C3: pushing five elements in order onto a default-constructed vector
yields capacities 1, 2, 4, 4, 8 after pushes 1..5, `length == 5`, the
elements stored in push order, and the reallocation growth rule used is
exactly the spec rule `growthTarget` (1 from capacity 0, else double). -/
theorem growth_sequence_five_pushes {α : Type} (a b c d e : α) :
    (push_back (vecNew : Vec α) a).capacity_ = 1 ∧
    (push_back (push_back (vecNew : Vec α) a) b).capacity_ = 2 ∧
    (push_back (push_back (push_back (vecNew : Vec α) a) b) c).capacity_ = 4 ∧
    (push_back (push_back (push_back (push_back (vecNew : Vec α) a) b) c)
      d).capacity_ = 4 ∧
    (push_back (push_back (push_back (push_back (push_back (vecNew : Vec α) a) b)
      c) d) e).capacity_ = 8 ∧
    (push_back (push_back (push_back (push_back (push_back (vecNew : Vec α) a) b)
      c) d) e).elems = [a, b, c, d, e] ∧
    (push_back (push_back (push_back (push_back (push_back (vecNew : Vec α) a) b)
      c) d) e).size_ = 5 ∧
    (∀ w : Vec α, increase_capacity w = growthTarget w.capacity_) := by
  refine ⟨?_, ?_, ?_, ?_, ?_, ?_, ?_, fun _ => rfl⟩ <;>
    simp [push_back, push_back_realloc, new_buffer, increase_capacity, vecNew,
      Vec.size_]

/-- C4: if the bulk copy `copy_construct_all` fails at element `k` (the
copy invocations before the k-th succeed and the k-th throws), the failure
is re-signaled, every already-constructed slot in `[0, k)` is constructed
exactly once and destroyed exactly once, no other slot is ever constructed
or destroyed, and every slot ends with zero live elements; consequently the
vector copy constructor re-signals the failure (after freeing its buffer)
and leaves no live element behind. -/
theorem copy_construct_rollback (F : Nat → Bool) (src : List α) (ctr k : Nat)
    (hk : k < src.length) (hbef : ∀ j, j < k → F (ctr + j) = false)
    (hf : F (ctr + k) = true) :
    (copy_construct_all F src ctr).failed = true ∧
    (∀ s, s < k → constructCount (copy_construct_all F src ctr).evs s = 1 ∧
        destroyCount (copy_construct_all F src ctr).evs s = 1) ∧
    (∀ s, k ≤ s → constructCount (copy_construct_all F src ctr).evs s = 0 ∧
        destroyCount (copy_construct_all F src ctr).evs s = 0) ∧
    (∀ s, constructCount (copy_construct_all F src ctr).evs s =
        destroyCount (copy_construct_all F src ctr).evs s) ∧
    (∀ (b : Bool) (cap : Nat),
        (vector_copy F (⟨b, src, cap⟩ : Vec α) ctr).1 = Except.error ()) := by
  obtain ⟨H1, H2, H3, H4, H5⟩ := cca_loop_fail F k src ctr 0 hk hbef hf
  have hconstr : (cca_loop F src ctr 0).constructed = k := by rw [H3]; omega
  have hfailed : (copy_construct_all F src ctr).failed = true := by
    simp only [copy_construct_all, H1, if_true]
  have hevs : (copy_construct_all F src ctr).evs =
      (cca_loop F src ctr 0).evs ++ destroy_all_ev α k := by
    simp only [copy_construct_all, H1, if_true, hconstr]
  have hCC : ∀ s, constructCount (copy_construct_all F src ctr).evs s =
      if s < k then 1 else 0 := by
    intro s
    have h4 := H4 s
    rw [Nat.zero_add] at h4
    rw [hevs, constructCount_append, h4, destroy_all_ev_constructCount]
    split_ifs with h1 h2 h3 <;> omega
  have hDC : ∀ s, destroyCount (copy_construct_all F src ctr).evs s =
      if s < k then 1 else 0 := by
    intro s
    rw [hevs, destroyCount_append, H5 s, destroy_all_ev_destroyCount]
    omega
  refine ⟨hfailed, ?_, ?_, ?_, ?_⟩
  · intro s hs
    rw [hCC s, hDC s, if_pos hs]
    exact ⟨rfl, rfl⟩
  · intro s hs
    have hns : ¬ s < k := by omega
    rw [hCC s, hDC s, if_neg hns]
    exact ⟨rfl, rfl⟩
  · intro s
    rw [hCC s, hDC s]
  · intro b cap
    simp only [vector_copy]
    have : (copy_construct_all F (⟨b, src, cap⟩ : Vec α).elems ctr).failed = true :=
      hfailed
    simp only [this, if_true]

/-- Witness for C4: five source elements, the third copy invocation
(number 2) fails. -/
theorem copy_construct_rollback_witness :
    (copy_construct_all (fun n => n == 2) ([5, 6, 7, 8, 9] : List Nat) 0).failed =
      true :=
  (copy_construct_rollback (fun n => n == 2) ([5, 6, 7, 8, 9] : List Nat) 0 2
      (by decide) (by decide) (by decide)).1

/-- C5: if the allocation or any element copy fails during `reserve(n)`
with `n > capacity`, the failure propagates and the vector afterwards is
identical to before the call — same length, same element values, same
capacity — because the failure occurs before the state swap. -/
theorem reserve_failure_preserves_state (O : Oracle) (v : Vec α) (n : Nat)
    (c : Counters) (h : v.capacity_ < n)
    (hf : O.allocFails c.ac = true ∨ (ccaRun O v.elems c.cc).1 = true) :
    (reserveF O v n c).1 = some () ∧ (reserveF O v n c).2.1 = v := by
  have hn : ¬ n ≤ v.capacity_ := by omega
  have h0 : ¬ n = 0 := by omega
  unfold reserveF new_bufferF
  cases ha : O.allocFails c.ac
  · rcases hf with hf | hf
    · rw [ha] at hf
      exact absurd hf (by simp)
    · simp [hn, h0, ha, hf]
  · simp [hn, h0, ha]

/-- Witness for C5: allocation fails on an empty vector reserving 1. -/
theorem reserve_failure_witness :
    (reserveF ⟨fun _ => false, fun _ => true⟩ (vecNew : Vec Nat) 1 ⟨0, 0⟩).1 =
      some () ∧
    (reserveF ⟨fun _ => false, fun _ => true⟩ (vecNew : Vec Nat) 1 ⟨0, 0⟩).2.1 =
      vecNew :=
  reserve_failure_preserves_state ⟨fun _ => false, fun _ => true⟩ vecNew 1 ⟨0, 0⟩
    (by decide) (Or.inl rfl)

/-- C6: a successful `reserve(n)` with `n <= capacity` leaves the whole
state unchanged; with `n > capacity` the new capacity is exactly `n` and
the elements (values, order, count) are unchanged. -/
theorem reserve_monotonic (v : Vec α) (n : Nat) :
    (n ≤ v.capacity_ → reserve v n = v) ∧
    (v.capacity_ < n → (reserve v n).capacity_ = n ∧
      (reserve v n).elems = v.elems ∧ (reserve v n).size_ = v.size_) := by
  constructor
  · intro h
    simp [reserve, h]
  · intro h
    have hn : ¬ n ≤ v.capacity_ := by omega
    have h0 : ¬ n = 0 := by omega
    simp [reserve, new_buffer, hn, h0, Vec.size_]

/-- Witness for C6, both branches on a two-element vector of capacity 2. -/
theorem reserve_monotonic_witness :
    reserve (⟨true, [1, 2], 2⟩ : Vec Nat) 1 = ⟨true, [1, 2], 2⟩ ∧
    ((reserve (⟨true, [1, 2], 2⟩ : Vec Nat) 5).capacity_ = 5 ∧
      (reserve (⟨true, [1, 2], 2⟩ : Vec Nat) 5).elems = [1, 2] ∧
      (reserve (⟨true, [1, 2], 2⟩ : Vec Nat) 5).size_ =
        (⟨true, [1, 2], 2⟩ : Vec Nat).size_) :=
  ⟨(reserve_monotonic (⟨true, [1, 2], 2⟩ : Vec Nat) 1).1 (by decide),
   (reserve_monotonic (⟨true, [1, 2], 2⟩ : Vec Nat) 5).2 (by decide)⟩

/-- C7: a successful `erase(first, last)` on a valid range keeps the prefix
before `first`, moves the elements of `[last, end)` to the positions
starting at `first` in their original relative order, and removes the
trailing `last - first` slots, so the length drops by `last - first`. -/
theorem erase_range_correct (v : Vec α) (f l : Nat) (hfl : f ≤ l)
    (hl : l ≤ v.elems.length) :
    (eraseRange v f l).1.elems = v.elems.take f ++ v.elems.drop l ∧
    (eraseRange v f l).1.elems.length = v.elems.length - (l - f) := by
  have h := eraseRange_elems v f l hfl hl
  refine ⟨h, ?_⟩
  rw [h, List.length_append, List.length_take, List.length_drop,
    Nat.min_eq_left (by omega)]
  omega

/-- Witness for C7: erasing indices 1..3 of `[1,2,3,4,5]` gives `[1,5]`. -/
theorem erase_range_witness :
    (eraseRange (⟨true, [1, 2, 3, 4, 5], 5⟩ : Vec Nat) 1 4).1.elems = [1, 5] ∧
    (eraseRange (⟨true, [1, 2, 3, 4, 5], 5⟩ : Vec Nat) 1 4).1.elems.length = 2 := by
  have h := erase_range_correct (⟨true, [1, 2, 3, 4, 5], 5⟩ : Vec Nat) 1 4
    (by decide) (by decide)
  exact ⟨h.1.trans (by decide), h.2.trans (by decide)⟩

/-- C8: for a full vector (`size_ == capacity_`), `push_back` takes a local
copy first (here: that copy succeeds), then reallocates to
`increase_capacity() == growthTarget(capacity)`; if reallocation fails the
state is fully preserved; if reallocation succeeds but the final
construction of the saved copy fails, the vector keeps the new, strictly
larger capacity while its elements and length are unchanged; if everything
succeeds the element is appended in the grown buffer. -/
theorem push_back_realloc_failure (O : Oracle) (v : Vec α) (value : α)
    (c : Counters) (hfull : v.elems.length = v.capacity_)
    (htmp : O.copyFails c.cc = false) :
    (O.allocFails c.ac = true ∨ (ccaRun O v.elems (c.cc + 1)).1 = true →
      (push_backF O v value c).1 = some () ∧ (push_backF O v value c).2.1 = v) ∧
    (O.allocFails c.ac = false → (ccaRun O v.elems (c.cc + 1)).1 = false →
      O.copyFails (ccaRun O v.elems (c.cc + 1)).2 = true →
      (push_backF O v value c).1 = some () ∧
      (push_backF O v value c).2.1.elems = v.elems ∧
      (push_backF O v value c).2.1.size_ = v.size_ ∧
      (push_backF O v value c).2.1.capacity_ = increase_capacity v ∧
      v.capacity_ < increase_capacity v ∧
      increase_capacity v = growthTarget v.capacity_) ∧
    (O.allocFails c.ac = false → (ccaRun O v.elems (c.cc + 1)).1 = false →
      O.copyFails (ccaRun O v.elems (c.cc + 1)).2 = false →
      (push_backF O v value c).1 = none ∧
      (push_backF O v value c).2.1.elems = v.elems ++ [value] ∧
      (push_backF O v value c).2.1.capacity_ = increase_capacity v) := by
  obtain ⟨hic0, hiclt, hicg⟩ := increase_capacity_spec v
  have hpb : push_backF O v value c = push_back_reallocF O v value c := by
    simp [push_backF, hfull]
  refine ⟨?_, ?_, ?_⟩
  · intro hfail
    rw [hpb]
    unfold push_back_reallocF
    rw [htmp]
    simp only [Bool.false_eq_true, if_false]
    cases ha : O.allocFails c.ac
    · rcases hfail with hfail | hfail
      · rw [ha] at hfail
        exact absurd hfail (by simp)
      · unfold new_bufferF
        simp [hic0, ha, hfail]
    · unfold new_bufferF
      simp [hic0, ha]
  · intro ha hcca hfin
    rw [hpb]
    unfold push_back_reallocF new_bufferF
    rw [htmp]
    simp only [Bool.false_eq_true, if_false]
    simp only [hic0, if_neg hic0, ha, Bool.false_eq_true, if_false, hcca,
      hfin, if_true, Vec.size_]
    exact ⟨by trivial, by trivial, by trivial, by trivial, hiclt, hicg⟩
  · intro ha hcca hfin
    rw [hpb]
    unfold push_back_reallocF new_bufferF
    rw [htmp]
    simp only [Bool.false_eq_true, if_false]
    simp only [hic0, if_neg hic0, ha, Bool.false_eq_true, if_false, hcca,
      hfin, Vec.size_]
    exact ⟨by trivial, by trivial, by trivial⟩

/-- Witness for C8: a full one-element vector; invocation 0 copies the
argument, invocation 1 copies the element into the new buffer, invocation
2 (the final construction) fails. -/
theorem push_back_realloc_failure_witness :
    (push_backF ⟨fun n => n == 2, fun _ => false⟩ (⟨true, [7], 1⟩ : Vec Nat) 9
        ⟨0, 0⟩).1 = some () ∧
    (push_backF ⟨fun n => n == 2, fun _ => false⟩ (⟨true, [7], 1⟩ : Vec Nat) 9
        ⟨0, 0⟩).2.1.elems = [7] ∧
    (push_backF ⟨fun n => n == 2, fun _ => false⟩ (⟨true, [7], 1⟩ : Vec Nat) 9
        ⟨0, 0⟩).2.1.capacity_ = 2 := by
  have h := (push_back_realloc_failure ⟨fun n => n == 2, fun _ => false⟩
    (⟨true, [7], 1⟩ : Vec Nat) 9 ⟨0, 0⟩ rfl rfl).2.1 rfl (by decide) (by decide)
  exact ⟨h.1, h.2.1, h.2.2.2.1.trans (by decide)⟩

/-- C9: self-assignment (`this == &other`, so the early-return branch of
`operator=` is taken) leaves the vector — content, length, capacity and
buffer — entirely unchanged. -/
theorem self_assignment_noop (a : Vec α) : vecAssign true a a = a := rfl

/-- C10: `erase(first, last)` returns the iterator `begin() + (last -
first)` — an offset from the start of the buffer equal to the number of
erased elements, independent of where the erased range lies — and
`erase(pos)` returns `pos + 1`, computed before the elements are shifted. -/
theorem erase_return_offsets (v : Vec α) (f l pos : Nat) :
    (eraseRange v f l).2 = l - f ∧ (eraseOne v pos).2 = pos + 1 :=
  ⟨rfl, rfl⟩

end Vh
